/-
  Verification of FB-Monitor against its specification.

  Shallow embedding of the relevant modules:
    * comments.py   — comment deduplication and merging
    * extractors.py — post extraction pipeline and strategy health
    * tracker.py    — tracking-job scheduling and pruning
    * stealth.py    — rate limiter
    * tor_pool.py   — Tor instance pool health monitor
    * fb_monitor.py — probe racing

  Python strings are modelled as `List Char`; wall-clock times as `ℚ`
  (seconds since the epoch), so that the second-to-hour and
  second-to-minute divisions of the source are exact.
-/
import Mathlib

namespace Comments

/-- Whitespace predicate used for Python `str.strip` and the regex `\s`
    (over the ASCII subset the model covers). -/
def isWs (c : Char) : Bool :=
  c = ' ' || c = '\t' || c = '\n' || c = '\r'

/-- Python `str.lower`, character by character. -/
def lowerS (s : List Char) : List Char := s.map Char.toLower

/-- Python `str.strip`: drop leading and trailing whitespace. -/
def stripS (s : List Char) : List Char :=
  ((s.dropWhile isWs).reverse.dropWhile isWs).reverse

/-- `re.sub(r'\s+', ' ', s)`: collapse each maximal whitespace run to a
    single space. The run is replaced at its last character. -/
def collapseWs : List Char → List Char
  | [] => []
  | [c] => if isWs c then [' '] else [c]
  | c :: d :: rest =>
    if isWs c ∧ isWs d then collapseWs (d :: rest)
    else (if isWs c then ' ' else c) :: collapseWs (d :: rest)

/-- `comments.Comment` (dataclass). -/
structure Comment where
  author : List Char
  text : List Char
  timestamp : List Char := []
  is_reply : Bool := false
  strategy : List Char := []
  depth : Nat := 0
deriving DecidableEq, Repr

/-- `comments._comment_key`:
    `f"{c.author.lower().strip()}|{re.sub(r'\s+', ' ', c.text.strip().lower())[:150]}"`. -/
def _comment_key (c : Comment) : List Char :=
  stripS (lowerS c.author) ++ '|' :: (collapseWs (lowerS (stripS c.text))).take 150

/-- One step of `_deduplicate`'s dict update: Python dicts keep insertion
    order, and assignment to an existing key replaces in place. -/
def dedupStep (seen : List (List Char × Comment)) (c : Comment) :
    List (List Char × Comment) :=
  let k := _comment_key c
  match seen.lookup k with
  | none => seen ++ [(k, c)]
  | some existing =>
    if (c.timestamp ≠ [] ∧ existing.timestamp = [])
        ∨ (c.author ≠ [] ∧ existing.author = []) then
      seen.map (fun kv => if kv.1 = k then (k, c) else kv)
    else seen

/-- `comments._deduplicate`. -/
def _deduplicate (comments : List Comment) : List Comment :=
  (comments.foldl dedupStep []).map Prod.snd

/-- Loop body of `merge_comments`: state is (merged list, key set, added). -/
def mergeStep (acc : List Comment × List (List Char) × Nat) (c : Comment) :
    List Comment × List (List Char) × Nat :=
  let k := _comment_key c
  if k ∈ acc.2.1 then acc
  else (acc.1 ++ [c], k :: acc.2.1, acc.2.2 + 1)

/-- `comments.merge_comments`: merge `new` into `existing` skipping keys
    already present; returns the merged list and the number appended. -/
def merge_comments (existing new : List Comment) :
    List Comment × Nat :=
  let r := new.foldl mergeStep (existing, existing.map _comment_key, 0)
  (r.1, r.2.2)

/-- Best-strategy selection loop of `comments.extract_comments`:
    `if len(results) > len(best): best = results` in strategy order.
    A strategy is a name paired with the comment list it returned. -/
def pickBest (strats : List (List Char × List Comment)) : List Comment :=
  strats.foldl (fun best nr => if nr.2.length > best.length then nr.2 else best) []

/-- `comments.extract_comments`, with the page interaction abstracted to the
    list of results each registered strategy returned: the single strategy
    with the most results is kept and deduplicated. -/
def extract_comments (strats : List (List Char × List Comment)) : List Comment :=
  _deduplicate (pickBest strats)

end Comments

namespace Extractors

/-- `extractors.ExtractedPost` (the fields the pipeline consults). -/
structure ExtractedPost where
  url : List Char
  id : List Char
  text : List Char := []
  strategy : List Char := []
deriving DecidableEq, Repr

/-- Inner loop of `extract_posts`: `if post.id not in all_posts:
    all_posts[post.id] = post`, the dict keeping insertion order. -/
def insertNew (acc : List ExtractedPost) (ps : List ExtractedPost) :
    List ExtractedPost :=
  ps.foldl (fun m p => if m.any (fun q => q.id = p.id) then m else m ++ [p]) acc

/-- `extractors.extract_posts`, with the page interaction abstracted to the
    list of results each registered strategy returned, in registration
    order. -/
def extract_posts (strats : List (List Char × List ExtractedPost)) :
    List ExtractedPost :=
  strats.foldl (fun acc nr => insertNew acc nr.2) []

/-- First-occurrence deduplication by `id` over a flat list
    (specification-side characterisation of the pipeline's union). -/
def dedupFirst (seen : List (List Char)) : List ExtractedPost → List ExtractedPost
  | [] => []
  | p :: ps =>
    if p.id ∈ seen then dedupFirst seen ps
    else p :: dedupFirst (p.id :: seen) ps

/-- A health-file entry for one strategy (`extractors.update_health`). -/
structure HealthEntry where
  total_runs : Nat := 0
  total_found : Nat := 0
  consecutive_zeros : Nat := 0
deriving DecidableEq, Repr

/-- The pure core of `update_health`: the entry after recording one run
    that found `found_count` posts. -/
def updateEntry (e : HealthEntry) (found_count : Nat) : HealthEntry :=
  { total_runs := e.total_runs + 1
    total_found := e.total_found + found_count
    consecutive_zeros := if found_count > 0 then 0 else e.consecutive_zeros + 1 }

/-- In-place update of the (unique) entry under a key of the health dict,
    modelled as an insertion-ordered association list. -/
def setHealth (name : List Char) (e2 : HealthEntry) :
    List (List Char × HealthEntry) → List (List Char × HealthEntry)
  | [] => []
  | kv :: rest =>
    if kv.1 = name then (name, e2) :: rest else kv :: setHealth name e2 rest

/-- `extractors.update_health` over the health mapping, creating the
    default entry when the strategy is new and mutating the existing entry
    otherwise. -/
def update_health (health : List (List Char × HealthEntry))
    (strategy_name : List Char) (found_count : Nat) :
    List (List Char × HealthEntry) :=
  match health.lookup strategy_name with
  | none => health ++ [(strategy_name, updateEntry {} found_count)]
  | some e => setHealth strategy_name (updateEntry e found_count) health

/-- The degraded signal of `update_health` / `get_health_report`:
    `consecutive_zeros >= 5`. -/
def degraded (e : HealthEntry) : Bool := e.consecutive_zeros ≥ 5

end Extractors

namespace Tracker

/-- A tracking job (`tracker.add_tracking_job`): `detected_at` and
    `last_comment_check` are epoch seconds, `none` standing for JSON null. -/
structure Job where
  post_id : List Char
  detected_at : ℚ
  last_comment_check : Option ℚ := none
  comment_checks : Nat := 0
deriving DecidableEq, Repr

/-- `LOOKBACK_TIERS` lookup inside `get_due_tracking_jobs`: the first tier
    whose `max_age_hours` bounds the job's age decides the interval
    (minutes); the 0-24h tier uses the caller-supplied `recheck_minutes`,
    and when no tier matches the interval keeps its initial value
    `recheck_minutes`. -/
def tierInterval (recheck_minutes : ℚ) (age_hours : ℚ) : ℚ :=
  if age_hours ≤ 24 then recheck_minutes
  else if age_hours ≤ 48 then 360
  else if age_hours ≤ 168 then 1440
  else if age_hours ≤ 720 then 10080
  else recheck_minutes

/-- The per-job due test of `get_due_tracking_jobs`. -/
def isDue (now recheck_minutes tracking_hours : ℚ) (j : Job) : Bool :=
  let age_hours := (now - j.detected_at) / 3600
  if age_hours > max tracking_hours 720 then false
  else
    match j.last_comment_check with
    | none => true
    | some last =>
      let minutes_since := (now - last) / 60
      minutes_since ≥ tierInterval recheck_minutes age_hours

/-- `tracker.get_due_tracking_jobs` over the `active_tracking` list. -/
def get_due_tracking_jobs (jobs : List Job)
    (now recheck_minutes tracking_hours : ℚ) : List Job :=
  jobs.filter (isDue now recheck_minutes tracking_hours)

/-- `tracker.prune_expired_jobs`: keep jobs whose age in hours is at most
    `max(tracking_hours, 720)`; returns the kept list and the removed
    count. -/
def prune_expired_jobs (jobs : List Job) (now tracking_hours : ℚ) :
    List Job × Nat :=
  let kept := jobs.filter
    (fun j => (now - j.detected_at) / 3600 ≤ max tracking_hours 720)
  (kept, jobs.length - kept.length)

end Tracker

namespace Stealth

/-- Python `min` over a nonempty list (the `should_wait` call site only
    reaches it with at least one element). -/
def listMin : List ℚ → ℚ
  | [] => 0
  | t :: ts => ts.foldl min t

/-- `RateLimiter._prune`: keep timestamps strictly newer than one hour. -/
def _prune (requests : List ℚ) (now : ℚ) : List ℚ :=
  requests.filter (fun t => t > now - 3600)

/-- `RateLimiter.should_wait`. The two `random.uniform` draws are passed as
    arguments: `rBig ∈ [10, 60]` pads the full-window wait, `rSmall ∈
    [30, 90]` is the above-80% delay. Python's `0.8` is modelled by the
    exact `4/5`, which agrees with the float computation at the limits the
    program uses. -/
def should_wait (max_per_hour : ℕ) (requests : List ℚ) (now rBig rSmall : ℚ) :
    Option ℚ :=
  let pruned := _prune requests now
  let count := pruned.length
  if count ≥ max_per_hour then
    some (max 0 (listMin pruned + 3600 - now + rBig))
  else if (count : ℚ) > (max_per_hour : ℚ) * (4 / 5) then some rSmall
  else none

end Stealth

namespace TorPool

/-- `tor_pool.InstanceState`. -/
inductive IState where
  | starting
  | bootstrapping
  | ready
  | stalled
  | failed
deriving DecidableEq, Repr

/-- `tor_pool.TorInstance` (the fields the health monitor and the selection
    functions consult). -/
structure Inst where
  state : IState
  restart_count : Nat := 0
  bootstrap_pct : Nat := 0
  last_progress_at : ℚ := 0
  last_control_ok : ℚ := 0
  last_login_wall_at : ℚ := 0
deriving DecidableEq, Repr

/-- What one monitor cycle observes about one instance: whether
    `process.poll()` reported an exit, the bootstrap-percentage query
    result, and whether a relaunch (if attempted) would succeed. -/
structure Obs where
  exited : Bool := false
  pct : Option Nat := none
  relaunchOk : Bool := true
deriving Repr

/-- Phase (a) of `TorPool._health_monitor` for one instance: FAILED is
    skipped, a crashed process forces FAILED, a BOOTSTRAPPING instance
    tracks progress / completes / stalls, and a READY instance with an
    unreachable control port stalls. -/
def perCheck (now stall_timeout control_timeout : ℚ) (o : Obs) (i : Inst) :
    Inst :=
  if i.state = IState.failed then i
  else if o.exited then { i with state := IState.failed }
  else
    match i.state with
    | IState.bootstrapping =>
      match o.pct with
      | some p =>
        let i1 := if p ≠ i.bootstrap_pct
          then { i with bootstrap_pct := p, last_progress_at := now } else i
        if p ≥ 100 then { i1 with state := IState.ready, last_control_ok := now }
        else if now - i1.last_progress_at > stall_timeout
          then { i1 with state := IState.stalled }
        else i1
      | none => i
    | IState.ready =>
      match o.pct with
      | some _ => { i with last_control_ok := now }
      | none =>
        if now - i.last_control_ok > control_timeout
          then { i with state := IState.stalled }
        else i
    | _ => i

/-- Phase (a) over the instance list (each paired with its observation). -/
def checkPhase (now stall_timeout control_timeout : ℚ) :
    List Obs → List Inst → List Inst
  | _, [] => []
  | [], is => is
  | o :: os, i :: is =>
    perCheck now stall_timeout control_timeout o i
      :: checkPhase now stall_timeout control_timeout os is

/-- `TorPool._restart_instance`: either relaunch succeeds (state becomes
    BOOTSTRAPPING) or it fails (state FAILED); `restart_count` is
    incremented on every path. -/
def restartInst (now : ℚ) (relaunchOk : Bool) (i : Inst) : Inst :=
  if relaunchOk then
    { i with state := IState.bootstrapping, bootstrap_pct := 0,
             last_progress_at := now, last_control_ok := now,
             restart_count := i.restart_count + 1 }
  else { i with state := IState.failed, restart_count := i.restart_count + 1 }

/-- Phase (b) of `_health_monitor`: restart the first STALLED-or-FAILED
    instance that still has restarts left; at most one per cycle. -/
def restartPhase (max_restarts : Nat) (now : ℚ) (relaunchOk : Bool) :
    List Inst → List Inst
  | [] => []
  | i :: is =>
    if (i.state = IState.stalled ∨ i.state = IState.failed)
        ∧ i.restart_count < max_restarts then
      restartInst now relaunchOk i :: is
    else i :: restartPhase max_restarts now relaunchOk is

/-- Environment of one `_health_monitor` cycle. -/
structure CycleEnv where
  now : ℚ
  stall_timeout : ℚ
  control_timeout : ℚ
  obs : List Obs
  relaunchOk : Bool
deriving Repr

/-- One full `_health_monitor` cycle: per-instance checks then the single
    auto-restart. -/
def healthCycle (max_restarts : Nat) (e : CycleEnv) (insts : List Inst) :
    List Inst :=
  restartPhase max_restarts e.now e.relaunchOk
    (checkPhase e.now e.stall_timeout e.control_timeout e.obs insts)

/-- Any number of monitor cycles. -/
def runCycles (max_restarts : Nat) (envs : List CycleEnv)
    (insts : List Inst) : List Inst :=
  envs.foldl (fun is e => healthCycle max_restarts e is) insts

/-- `TorPool.get_healthy`: instances in READY state. -/
def get_healthy (insts : List Inst) : List Inst :=
  insts.filter (fun i => i.state = IState.ready)

/-- `TorPool.get_raceable`: READY instances out of login-wall cooldown,
    falling back to `get_healthy` when that filter is empty. -/
def get_raceable (insts : List Inst) (now : ℚ) (cooldown : ℚ) : List Inst :=
  let raceable := insts.filter
    (fun i => i.state = IState.ready ∧ now - i.last_login_wall_at > cooldown)
  if raceable.isEmpty then get_healthy insts else raceable

/-- An instance whose restarts are exhausted while STALLED or FAILED
    (the terminal condition `_health_monitor` tests for "all failed"). -/
def exhausted (max_restarts : Nat) (i : Inst) : Prop :=
  (i.state = IState.stalled ∨ i.state = IState.failed)
    ∧ i.restart_count ≥ max_restarts

instance (m : Nat) (i : Inst) : Decidable (exhausted m i) := by
  unfold exhausted; infer_instance

end TorPool

namespace FBMonitor

/-- The completion of one probe thread in `_probe_tor_instances`: the Tor
    instance it probed and whether it returned that instance (success, no
    login wall, no exception) or `None`. -/
structure ProbeEvent where
  inst : Nat
  ok : Bool
deriving DecidableEq, Repr

/-- One iteration of the `as_completed` loop of `_probe_tor_instances`:
    while `winner[0] is None`, a non-`None` probe result sets the winner;
    afterwards nothing is written (the loop has broken). -/
def raceStep (w : Option Nat) (ev : ProbeEvent) : Option Nat :=
  match w with
  | some x => some x
  | none => if ev.ok then some ev.inst else none

/-- The `as_completed` loop of `_probe_tor_instances`: futures are consumed
    in completion order by the single main thread; the first non-`None`
    result while `winner[0] is None` sets the winner and breaks. -/
def raceWinner (completions : List ProbeEvent) : Option Nat :=
  completions.foldl raceStep none

end FBMonitor

/-! ## Helper lemmas -/

namespace Comments

/-- Characterisation of `merge_comments`' fold: starting from any
    accumulator, the fold appends exactly the new comments whose keys are
    fresh, threading the key set and the added counter. -/
theorem mergeStep_foldl (new : List Comment) :
    ∀ (lst : List Comment) (keys : List (List Char)) (n : Nat),
    ∃ t : List Comment,
      new.foldl mergeStep (lst, keys, n)
          = (lst ++ t, (t.map _comment_key).reverse ++ keys, n + t.length)
      ∧ (∀ c ∈ t, c ∈ new ∧ _comment_key c ∉ keys)
      ∧ (t.map _comment_key).Nodup
      ∧ (∀ c ∈ new,
          _comment_key c ∈ keys ∨ _comment_key c ∈ t.map _comment_key) := by
  induction new with
  | nil =>
    intro lst keys n
    exact ⟨[], by simp, by simp, by simp, by simp⟩
  | cons c rest ih =>
    intro lst keys n
    by_cases hin : _comment_key c ∈ keys
    · obtain ⟨t, h1, h2, h3, h4⟩ := ih lst keys n
      refine ⟨t, ?_, ?_, h3, ?_⟩
      · simpa [mergeStep, hin] using h1
      · exact fun d hd => ⟨List.mem_cons_of_mem _ (h2 d hd).1, (h2 d hd).2⟩
      · intro d hd
        rcases List.mem_cons.mp hd with rfl | hd2
        · exact Or.inl hin
        · exact h4 d hd2
    · obtain ⟨t, h1, h2, h3, h4⟩ :=
        ih (lst ++ [c]) (_comment_key c :: keys) (n + 1)
      refine ⟨c :: t, ?_, ?_, ?_, ?_⟩
      · rw [List.foldl_cons]
        have hstep : mergeStep (lst, keys, n) c
            = (lst ++ [c], _comment_key c :: keys, n + 1) := by
          simp [mergeStep, hin]
        rw [hstep, h1]
        refine congrArg₂ Prod.mk (by simp) (congrArg₂ Prod.mk ?_ ?_)
        · simp
        · simp only [List.length_cons]
          omega
      · intro d hd
        rcases List.mem_cons.mp hd with rfl | hd2
        · exact ⟨List.mem_cons_self _ _, hin⟩
        · refine ⟨List.mem_cons_of_mem _ (h2 d hd2).1, fun hk => ?_⟩
          exact (h2 d hd2).2 (List.mem_cons_of_mem _ hk)
      · refine List.nodup_cons.mpr ⟨?_, h3⟩
        intro hk
        obtain ⟨d, hd, hkey⟩ := List.mem_map.mp hk
        exact (h2 d hd).2 (hkey ▸ List.mem_cons_self _ _)
      · intro d hd
        rcases List.mem_cons.mp hd with rfl | hd2
        · exact Or.inr (List.mem_map_of_mem _ (List.mem_cons_self _ _))
        · rcases h4 d hd2 with hk | hk
          · rcases List.mem_cons.mp hk with heq | hk2
            · exact Or.inr (heq ▸ List.mem_map_of_mem _ (List.mem_cons_self _ _))
            · exact Or.inl hk2
          · obtain ⟨d2, hd2t, hkey⟩ := List.mem_map.mp hk
            exact Or.inr (hkey ▸ List.mem_map_of_mem _ (List.mem_cons_of_mem _ hd2t))

/-- Lists split uniquely around a separator absent from both left parts. -/
theorem key_split (A1 T1 : List Char) :
    ∀ (A2 T2 : List Char), '|' ∉ A1 → '|' ∉ A2 →
    A1 ++ '|' :: T1 = A2 ++ '|' :: T2 → A1 = A2 ∧ T1 = T2 := by
  induction A1 with
  | nil =>
    intro A2 T2 h1 h2 h
    cases A2 with
    | nil => simpa using h
    | cons b B2 =>
      rw [List.nil_append, List.cons_append] at h
      obtain ⟨hb, -⟩ := List.cons.inj h
      subst hb
      exact absurd (List.mem_cons_self _ _) h2
  | cons a A1t ih =>
    intro A2 T2 h1 h2 h
    cases A2 with
    | nil =>
      rw [List.cons_append, List.nil_append] at h
      obtain ⟨ha, -⟩ := List.cons.inj h
      subst ha
      exact absurd (List.mem_cons_self _ _) h1
    | cons b B2 =>
      rw [List.cons_append, List.cons_append] at h
      obtain ⟨hab, ht⟩ := List.cons.inj h
      subst hab
      have h1t : '|' ∉ A1t := fun hx => h1 (List.mem_cons_of_mem _ hx)
      have h2t : '|' ∉ B2 := fun hx => h2 (List.mem_cons_of_mem _ hx)
      obtain ⟨hA, hT⟩ := ih B2 T2 h1t h2t ht
      exact ⟨by rw [hA], hT⟩

/-- `merge_comments` unfolded through `mergeStep_foldl`. -/
theorem merge_comments_spec (e n : List Comment) :
    ∃ t : List Comment,
      (merge_comments e n).1 = e ++ t
      ∧ (merge_comments e n).2 = t.length
      ∧ (∀ c ∈ t, c ∈ n ∧ _comment_key c ∉ e.map _comment_key)
      ∧ (t.map _comment_key).Nodup
      ∧ (∀ c ∈ n, _comment_key c ∈ (e ++ t).map _comment_key) := by
  obtain ⟨t, h1, h2, h3, h4⟩ := mergeStep_foldl n e (e.map _comment_key) 0
  refine ⟨t, ?_, ?_, h2, h3, ?_⟩
  · simp [merge_comments, h1]
  · simp [merge_comments, h1]
  · intro c hc
    rcases h4 c hc with hk | hk
    · simp [hk]
    · simp [hk]

end Comments

namespace Extractors

theorem dedupFirst_congr (ps : List ExtractedPost) :
    ∀ s1 s2 : List (List Char), (∀ x, x ∈ s1 ↔ x ∈ s2) →
    dedupFirst s1 ps = dedupFirst s2 ps := by
  induction ps with
  | nil => intro s1 s2 _; rfl
  | cons p ps ih =>
    intro s1 s2 hs
    by_cases h : p.id ∈ s1
    · rw [dedupFirst, if_pos h, dedupFirst, if_pos ((hs _).mp h)]
      exact ih s1 s2 hs
    · rw [dedupFirst, if_neg h, dedupFirst, if_neg (fun hx => h ((hs _).mpr hx))]
      refine congrArg _ (ih _ _ ?_)
      intro x
      simp [hs x]

theorem insertNew_eq (ps : List ExtractedPost) :
    ∀ m : List ExtractedPost,
    insertNew m ps = m ++ dedupFirst (m.map (fun q => q.id)) ps := by
  induction ps with
  | nil => intro m; simp [insertNew, dedupFirst]
  | cons p ps ih =>
    intro m
    have hany : (m.any (fun q => q.id = p.id) = true)
        ↔ p.id ∈ m.map (fun q => q.id) := by
      rw [List.any_eq_true]
      constructor
      · rintro ⟨q, hq, hqe⟩
        exact List.mem_map.mpr ⟨q, hq, by simpa using hqe⟩
      · intro hm
        obtain ⟨q, hq, hqe⟩ := List.mem_map.mp hm
        exact ⟨q, hq, by simp [hqe]⟩
    by_cases h : p.id ∈ m.map (fun q => q.id)
    · rw [insertNew, List.foldl_cons, if_pos (hany.mpr h)]
      rw [show (List.foldl (fun m p =>
          if m.any (fun q => q.id = p.id) = true then m else m ++ [p]) m ps)
          = insertNew m ps from rfl]
      rw [ih m, dedupFirst, if_pos h]
    · rw [insertNew, List.foldl_cons, if_neg (fun hx => h (hany.mp hx))]
      rw [show (List.foldl (fun m p =>
          if m.any (fun q => q.id = p.id) = true then m else m ++ [p])
          (m ++ [p]) ps) = insertNew (m ++ [p]) ps from rfl]
      rw [ih (m ++ [p]), dedupFirst, if_neg h]
      have hseen : dedupFirst ((m ++ [p]).map (fun q => q.id)) ps
          = dedupFirst (p.id :: m.map (fun q => q.id)) ps := by
        refine dedupFirst_congr ps _ _ ?_
        intro x
        simp [or_comm]
      rw [hseen]
      simp

theorem dedupFirst_append (ps : List ExtractedPost) :
    ∀ (qs : List ExtractedPost) (s : List (List Char)),
    dedupFirst s (ps ++ qs)
      = dedupFirst s ps
        ++ dedupFirst ((dedupFirst s ps).map (fun q => q.id) ++ s) qs := by
  induction ps with
  | nil =>
    intro qs s
    simp [dedupFirst]
  | cons p ps ih =>
    intro qs s
    by_cases h : p.id ∈ s
    · rw [List.cons_append, dedupFirst, if_pos h, dedupFirst, if_pos h]
      exact ih qs s
    · rw [List.cons_append, dedupFirst, if_neg h, dedupFirst, if_neg h]
      rw [ih qs (p.id :: s), List.cons_append]
      refine congrArg _ (congrArg _ (dedupFirst_congr qs _ _ ?_))
      intro x
      simp only [List.mem_append, List.mem_map, List.mem_cons]
      constructor
      · rintro (⟨q, hq, rfl⟩ | hx | hx)
        · exact Or.inl ⟨q, Or.inr hq, rfl⟩
        · exact Or.inl ⟨p, Or.inl rfl, hx.symm⟩
        · exact Or.inr hx
      · rintro (⟨q, rfl | hq, rfl⟩ | hx)
        · exact Or.inr (Or.inl rfl)
        · exact Or.inl ⟨q, hq, rfl⟩
        · exact Or.inr (Or.inr hx)

theorem extract_posts_foldl (strats : List (List Char × List ExtractedPost)) :
    ∀ m : List ExtractedPost,
    strats.foldl (fun acc nr => insertNew acc nr.2) m
      = m ++ dedupFirst (m.map (fun q => q.id))
          ((strats.map Prod.snd).flatten) := by
  induction strats with
  | nil => intro m; simp [dedupFirst]
  | cons r rest ih =>
    intro m
    rw [List.foldl_cons, ih (insertNew m r.2), insertNew_eq r.2 m,
      List.map_cons, List.flatten_cons, dedupFirst_append]
    rw [List.append_assoc]
    refine congrArg _ (congrArg _ (dedupFirst_congr _ _ _ ?_))
    intro x
    simp only [List.map_append, List.mem_append]
    exact or_comm

theorem extract_posts_eq (strats : List (List Char × List ExtractedPost)) :
    extract_posts strats = dedupFirst [] ((strats.map Prod.snd).flatten) := by
  rw [extract_posts, extract_posts_foldl strats []]
  simp

theorem dedupFirst_mem (l : List ExtractedPost) :
    ∀ (s : List (List Char)) (q : ExtractedPost), q ∈ dedupFirst s l →
    q ∈ l ∧ q.id ∉ s := by
  induction l with
  | nil => intro s q hq; simp [dedupFirst] at hq
  | cons p l ih =>
    intro s q hq
    by_cases h : p.id ∈ s
    · rw [dedupFirst, if_pos h] at hq
      exact ⟨List.mem_cons_of_mem _ (ih s q hq).1, (ih s q hq).2⟩
    · rw [dedupFirst, if_neg h] at hq
      rcases List.mem_cons.mp hq with rfl | hq2
      · exact ⟨List.mem_cons_self _ _, h⟩
      · have hs := ih _ q hq2
        exact ⟨List.mem_cons_of_mem _ hs.1,
          fun hx => hs.2 (List.mem_cons_of_mem _ hx)⟩

theorem dedupFirst_ids_nodup (l : List ExtractedPost) :
    ∀ s : List (List Char),
    ((dedupFirst s l).map (fun q => q.id)).Nodup := by
  induction l with
  | nil => intro s; simp [dedupFirst]
  | cons p l ih =>
    intro s
    by_cases h : p.id ∈ s
    · rw [dedupFirst, if_pos h]; exact ih s
    · rw [dedupFirst, if_neg h, List.map_cons]
      refine List.nodup_cons.mpr ⟨?_, ih _⟩
      intro hx
      obtain ⟨q, hq, hid⟩ := List.mem_map.mp hx
      exact (dedupFirst_mem l _ q hq).2 (hid ▸ List.mem_cons_self _ _)

theorem dedupFirst_complete (l : List ExtractedPost) :
    ∀ (s : List (List Char)) (p : ExtractedPost), p ∈ l →
    p.id ∈ s ∨ p.id ∈ (dedupFirst s l).map (fun q => q.id) := by
  induction l with
  | nil => intro s p hp; simp at hp
  | cons q l ih =>
    intro s p hp
    by_cases h : q.id ∈ s
    · rw [dedupFirst, if_pos h]
      rcases List.mem_cons.mp hp with rfl | hp2
      · exact Or.inl h
      · exact ih s p hp2
    · rw [dedupFirst, if_neg h, List.map_cons]
      rcases List.mem_cons.mp hp with rfl | hp2
      · exact Or.inr (List.mem_cons_self _ _)
      · rcases ih (q.id :: s) p hp2 with hx | hx
        · rcases List.mem_cons.mp hx with he | hs2
          · exact Or.inr (he ▸ List.mem_cons_self _ _)
          · exact Or.inl hs2
        · exact Or.inr (List.mem_cons_of_mem _ hx)

theorem dedupFirst_find (l : List ExtractedPost) :
    ∀ (s : List (List Char)) (q : ExtractedPost), q ∈ dedupFirst s l →
    l.find? (fun p => p.id = q.id) = some q := by
  induction l with
  | nil => intro s q hq; simp [dedupFirst] at hq
  | cons p l ih =>
    intro s q hq
    by_cases h : p.id ∈ s
    · rw [dedupFirst, if_pos h] at hq
      have hne : ¬ (p.id = q.id) := by
        intro he
        exact (dedupFirst_mem l s q hq).2 (he ▸ h)
      rw [List.find?_cons]
      simp only [hne, decide_False]
      exact ih s q hq
    · rw [dedupFirst, if_neg h] at hq
      rcases List.mem_cons.mp hq with rfl | hq2
      · rw [List.find?_cons]
        simp
      · have hs := dedupFirst_mem l _ q hq2
        have hne : ¬ (p.id = q.id) := by
          intro he
          exact hs.2 (he ▸ List.mem_cons_self _ _)
        rw [List.find?_cons]
        simp only [hne, decide_False]
        exact ih _ q hq2

theorem countP_id_eq_one (l : List ExtractedPost) (x : List Char)
    (hn : (l.map (fun q => q.id)).Nodup) (hx : x ∈ l.map (fun q => q.id)) :
    l.countP (fun q => q.id = x) = 1 := by
  induction l with
  | nil => simp at hx
  | cons p l ih =>
    rw [List.map_cons, List.nodup_cons] at hn
    rw [List.map_cons] at hx
    rcases List.mem_cons.mp hx with rfl | hx2
    · rw [List.countP_cons]
      have hz : l.countP (fun q => q.id = p.id) = 0 := by
        refine List.countP_eq_zero.mpr ?_
        intro q hq
        simp only [decide_eq_true_eq]
        intro he
        exact hn.1 (he ▸ List.mem_map_of_mem _ hq)
      simp [hz]
    · rw [List.countP_cons]
      have hne : ¬ (p.id = x) := by
        intro he
        exact hn.1 (he ▸ hx2)
      simp [hne, ih hn.2 hx2]

theorem pickBest_foldl (strats : List (List Char × List Comments.Comment)) :
    ∀ b : List Comments.Comment,
    let res := strats.foldl
      (fun best nr => if nr.2.length > best.length then nr.2 else best) b
    (res = b ∨ ∃ nm, (nm, res) ∈ strats)
      ∧ b.length ≤ res.length
      ∧ ∀ r ∈ strats, r.2.length ≤ res.length := by
  induction strats with
  | nil =>
    intro b
    exact ⟨Or.inl rfl, le_refl _, by simp⟩
  | cons r rest ih =>
    intro b
    rw [List.foldl_cons]
    by_cases h : r.2.length > b.length
    · rw [if_pos h]
      obtain ⟨h1, h2, h3⟩ := ih r.2
      refine ⟨?_, le_trans (le_of_lt h) h2, ?_⟩
      · rcases h1 with he | ⟨nm, hm⟩
        · exact Or.inr ⟨r.1, by rw [he]; exact List.mem_cons_self _ _⟩
        · exact Or.inr ⟨nm, List.mem_cons_of_mem _ hm⟩
      · intro r2 hr2
        rcases List.mem_cons.mp hr2 with rfl | hr3
        · exact h2
        · exact h3 r2 hr3
    · rw [if_neg h]
      obtain ⟨h1, h2, h3⟩ := ih b
      refine ⟨?_, h2, ?_⟩
      · rcases h1 with he | ⟨nm, hm⟩
        · exact Or.inl he
        · exact Or.inr ⟨nm, List.mem_cons_of_mem _ hm⟩
      · intro r2 hr2
        rcases List.mem_cons.mp hr2 with rfl | hr3
        · exact le_trans (not_lt.mp h) h2
        · exact h3 r2 hr3

theorem lookup_append_none {α β : Type} [BEq α] (a : α)
    (l₁ l₂ : List (α × β)) (h : l₁.lookup a = none) :
    (l₁ ++ l₂).lookup a = l₂.lookup a := by
  induction l₁ with
  | nil => rfl
  | cons kv l ih =>
    simp only [List.lookup, List.cons_append] at h ⊢
    cases hk : (a == kv.1) with
    | true => simp [hk] at h
    | false => simp only [hk] at h ⊢; exact ih h

theorem lookup_setHealth (name : List Char) (e2 : HealthEntry)
    (l : List (List Char × HealthEntry)) (e : HealthEntry)
    (h : l.lookup name = some e) :
    (setHealth name e2 l).lookup name = some e2 := by
  induction l with
  | nil => simp [List.lookup] at h
  | cons kv l ih =>
    obtain ⟨k, v⟩ := kv
    by_cases hk : k = name
    · simp [setHealth, hk, List.lookup]
    · have hb : (name == k) = false := by simp [Ne.symm hk]
      have h2 : List.lookup name l = some e := by
        simpa [List.lookup, hb] using h
      simpa [setHealth, hk, List.lookup, hb] using ih h2

end Extractors

namespace Stealth

theorem foldl_min_mem (ts : List ℚ) : ∀ a : ℚ, ts.foldl min a ∈ a :: ts := by
  induction ts with
  | nil => intro a; simp
  | cons b bs ih =>
    intro a
    have h := ih (min a b)
    rcases List.mem_cons.mp h with h1 | h1
    · rcases min_choice a b with hm | hm
      · exact List.mem_cons.mpr (Or.inl (h1.trans hm))
      · rw [List.foldl_cons, h1, hm]
        exact List.mem_cons_of_mem _ (List.mem_cons_self _ _)
    · exact List.mem_cons_of_mem _ (List.mem_cons_of_mem _ h1)

theorem listMin_mem (l : List ℚ) (h : l ≠ []) : listMin l ∈ l := by
  cases l with
  | nil => exact absurd rfl h
  | cons t ts => simpa [listMin] using foldl_min_mem ts t

end Stealth

namespace TorPool

theorem perCheck_restart_count (now st ct : ℚ) (o : Obs) (i : Inst) :
    (perCheck now st ct o i).restart_count = i.restart_count := by
  rcases o with ⟨ex, pct, rok⟩
  unfold perCheck
  cases hs : i.state <;> cases ex <;> cases pct <;>
    simp_all <;> split_ifs <;> rfl

theorem perCheck_keeps_terminal (now st ct : ℚ) (o : Obs) (i : Inst)
    (h : i.state = IState.stalled ∨ i.state = IState.failed) :
    (perCheck now st ct o i).state = IState.stalled
      ∨ (perCheck now st ct o i).state = IState.failed := by
  rcases h with h | h
  · by_cases he : o.exited <;> simp [perCheck, h, he]
  · simp [perCheck, h]

theorem checkPhase_get (now st ct : ℚ) :
    ∀ (is : List Inst) (os : List Obs) (j : Nat) (i : Inst),
    is[j]? = some i →
    ∃ i2, (checkPhase now st ct os is)[j]? = some i2
      ∧ (i2 = i ∨ ∃ o, i2 = perCheck now st ct o i) := by
  intro is
  induction is with
  | nil => intro os j i hj; simp at hj
  | cons i0 is ih =>
    intro os j i hj
    cases os with
    | nil => exact ⟨i, by simpa [checkPhase] using hj, Or.inl rfl⟩
    | cons o os =>
      cases j with
      | zero =>
        simp only [List.getElem?_cons_zero, Option.some.injEq] at hj
        subst hj
        exact ⟨perCheck now st ct o i0, by simp [checkPhase], Or.inr ⟨o, rfl⟩⟩
      | succ j =>
        simp only [List.getElem?_cons_succ] at hj
        obtain ⟨i2, h1, h2⟩ := ih os j i hj
        exact ⟨i2, by simpa [checkPhase] using h1, h2⟩

theorem restartPhase_get (m : Nat) (now : ℚ) (rok : Bool) :
    ∀ (l : List Inst) (j : Nat) (i : Inst),
    l[j]? = some i →
    ¬ ((i.state = IState.stalled ∨ i.state = IState.failed)
        ∧ i.restart_count < m) →
    (restartPhase m now rok l)[j]? = some i := by
  intro l
  induction l with
  | nil => intro j i hj _; simp at hj
  | cons x xs ih =>
    intro j i hj hni
    by_cases hc : (x.state = IState.stalled ∨ x.state = IState.failed)
        ∧ x.restart_count < m
    · rw [restartPhase, if_pos hc]
      cases j with
      | zero =>
        simp only [List.getElem?_cons_zero, Option.some.injEq] at hj
        exact absurd (hj ▸ hc) hni
      | succ j =>
        simpa only [List.getElem?_cons_succ] using hj
    · rw [restartPhase, if_neg hc]
      cases j with
      | zero => simpa using hj
      | succ j =>
        simp only [List.getElem?_cons_succ] at hj ⊢
        exact ih j i hj hni

theorem healthCycle_preserves (m : Nat) (e : CycleEnv) (is : List Inst)
    (j : Nat) (i : Inst) (hj : is[j]? = some i)
    (hs : i.state = IState.stalled ∨ i.state = IState.failed)
    (hr : m ≤ i.restart_count) :
    ∃ i2, (healthCycle m e is)[j]? = some i2
      ∧ (i2.state = IState.stalled ∨ i2.state = IState.failed)
      ∧ i2.restart_count = i.restart_count := by
  obtain ⟨i1, h1, h2⟩ :=
    checkPhase_get e.now e.stall_timeout e.control_timeout is e.obs j i hj
  have hs1 : i1.state = IState.stalled ∨ i1.state = IState.failed := by
    rcases h2 with rfl | ⟨o, rfl⟩
    · exact hs
    · exact perCheck_keeps_terminal _ _ _ o i hs
  have hr1 : i1.restart_count = i.restart_count := by
    rcases h2 with rfl | ⟨o, rfl⟩
    · rfl
    · exact perCheck_restart_count _ _ _ o i
  refine ⟨i1, ?_, hs1, hr1⟩
  exact restartPhase_get m e.now e.relaunchOk _ j i1 h1
    (fun hx => absurd hx.2 (not_lt.mpr (hr1 ▸ hr)))

theorem runCycles_preserves (m : Nat) (envs : List CycleEnv) :
    ∀ (is : List Inst) (j : Nat) (i : Inst), is[j]? = some i →
    (i.state = IState.stalled ∨ i.state = IState.failed) →
    m ≤ i.restart_count →
    ∃ i2, (runCycles m envs is)[j]? = some i2
      ∧ (i2.state = IState.stalled ∨ i2.state = IState.failed)
      ∧ i2.restart_count = i.restart_count := by
  induction envs with
  | nil => intro is j i hj hs hr; exact ⟨i, hj, hs, rfl⟩
  | cons e es ih =>
    intro is j i hj hs hr
    obtain ⟨i1, h1, hs1, hr1⟩ := healthCycle_preserves m e is j i hj hs hr
    obtain ⟨i2, h2, hs2, hr2⟩ :=
      ih (healthCycle m e is) j i1 h1 hs1 (hr1 ▸ hr)
    exact ⟨i2, by simpa [runCycles] using h2, hs2, hr2.trans hr1⟩

theorem not_ready_not_healthy (l : List Inst) (i : Inst)
    (h : i.state ≠ IState.ready) : i ∉ get_healthy l := by
  intro hm
  exact h (by simpa using (List.mem_filter.mp hm).2)

theorem not_ready_not_raceable (l : List Inst) (i : Inst)
    (h : i.state ≠ IState.ready) (now cooldown : ℚ) :
    i ∉ get_raceable l now cooldown := by
  intro hm
  rw [get_raceable] at hm
  split at hm
  · exact not_ready_not_healthy l i h hm
  · have hp := (List.mem_filter.mp hm).2
    simp only [decide_eq_true_eq] at hp
    exact h hp.1

end TorPool

namespace FBMonitor

theorem foldl_raceStep_some (l : List ProbeEvent) (w : Nat) :
    l.foldl raceStep (some w) = some w := by
  induction l with
  | nil => rfl
  | cons e l ih => simpa [raceStep] using ih

theorem raceWinner_eq_find (l : List ProbeEvent) :
    raceWinner l = (l.find? (fun e => e.ok)).map ProbeEvent.inst := by
  induction l with
  | nil => rfl
  | cons e l ih =>
    simp only [raceWinner, List.foldl, List.find?]
    cases he : e.ok with
    | true => simp [raceStep, he, foldl_raceStep_some]
    | false => simpa [raceStep, he] using ih

end FBMonitor

/-! ## Claims -/

/-- **C6.** In every reachable pool state (any starting instance list, any
    sequence of health-monitor cycles with arbitrary observations), an
    instance that is STALLED or FAILED with `restart_count` at
    `max_restarts` is never restarted: its `restart_count` never changes,
    its state stays STALLED or FAILED (never READY), and it is never
    contained in `get_healthy` or `get_raceable`, which return only READY
    instances. -/
theorem C6_exhausted_never_restarted (m : Nat) (envs : List TorPool.CycleEnv)
    (insts : List TorPool.Inst) (j : Nat) (i : TorPool.Inst)
    (hj : insts[j]? = some i) (hx : TorPool.exhausted m i) :
    ∃ i2, (TorPool.runCycles m envs insts)[j]? = some i2
      ∧ (i2.state = TorPool.IState.stalled
          ∨ i2.state = TorPool.IState.failed)
      ∧ i2.restart_count = i.restart_count
      ∧ TorPool.exhausted m i2
      ∧ i2 ∉ TorPool.get_healthy (TorPool.runCycles m envs insts)
      ∧ ∀ now cooldown : ℚ,
          i2 ∉ TorPool.get_raceable (TorPool.runCycles m envs insts)
              now cooldown := by
  obtain ⟨i2, h1, hs2, hr2⟩ :=
    TorPool.runCycles_preserves m envs insts j i hj hx.1 hx.2
  have hnr : i2.state ≠ TorPool.IState.ready := by
    rcases hs2 with h | h <;> rw [h] <;> intro hc <;> cases hc
  exact ⟨i2, h1, hs2, hr2, ⟨hs2, hr2 ▸ hx.2⟩,
    TorPool.not_ready_not_healthy _ i2 hnr,
    fun now cd => TorPool.not_ready_not_raceable _ i2 hnr now cd⟩

/-- Witness for C6: one FAILED instance with `restart_count = 3 =
    max_restarts`, run through one monitor cycle in which a relaunch would
    have succeeded had it been attempted. -/
theorem C6_exhausted_never_restarted_witness :
    (([({ state := TorPool.IState.failed, restart_count := 3 } :
          TorPool.Inst)])[0]? = some
        ({ state := TorPool.IState.failed, restart_count := 3 } :
          TorPool.Inst)
      ∧ TorPool.exhausted 3
          ({ state := TorPool.IState.failed, restart_count := 3 } :
            TorPool.Inst))
    ∧ ∃ i2,
        (TorPool.runCycles 3
            [{ now := 10, stall_timeout := 90, control_timeout := 30,
               obs := [{ exited := false, pct := some 100,
                         relaunchOk := true }],
               relaunchOk := true }]
            [{ state := TorPool.IState.failed, restart_count := 3 }])[0]?
          = some i2
      ∧ (i2.state = TorPool.IState.stalled
          ∨ i2.state = TorPool.IState.failed)
      ∧ i2.restart_count
          = ({ state := TorPool.IState.failed, restart_count := 3 } :
              TorPool.Inst).restart_count
      ∧ TorPool.exhausted 3 i2
      ∧ i2 ∉ TorPool.get_healthy (TorPool.runCycles 3
            [{ now := 10, stall_timeout := 90, control_timeout := 30,
               obs := [{ exited := false, pct := some 100,
                         relaunchOk := true }],
               relaunchOk := true }]
            [{ state := TorPool.IState.failed, restart_count := 3 }])
      ∧ ∀ now cooldown : ℚ,
          i2 ∉ TorPool.get_raceable (TorPool.runCycles 3
              [{ now := 10, stall_timeout := 90, control_timeout := 30,
                 obs := [{ exited := false, pct := some 100,
                           relaunchOk := true }],
                 relaunchOk := true }]
              [{ state := TorPool.IState.failed, restart_count := 3 }])
              now cooldown :=
  ⟨⟨by decide, by decide⟩,
   C6_exhausted_never_restarted 3
     [{ now := 10, stall_timeout := 90, control_timeout := 30,
        obs := [{ exited := false, pct := some 100, relaunchOk := true }],
        relaunchOk := true }]
     [{ state := TorPool.IState.failed, restart_count := 3 }]
     0 { state := TorPool.IState.failed, restart_count := 3 }
     (by decide) (by decide)⟩

/-- **C7.** After every `update_health(strategy_name, found_count)` call,
    the strategy's `consecutive_zeros` counter equals 0 when `found_count`
    was non-zero and its previous value (0 for a fresh entry) plus 1
    otherwise, and the degraded signal is raised exactly when the counter
    is at least 5 after the update. -/
theorem C7_update_health (health : List (List Char × Extractors.HealthEntry))
    (name : List Char) (found_count : Nat) :
    ∃ e, (Extractors.update_health health name found_count).lookup name = some e
      ∧ e.consecutive_zeros =
          (if found_count = 0
           then ((health.lookup name).getD {}).consecutive_zeros + 1
           else 0)
      ∧ (Extractors.degraded e = true ↔ 5 ≤ e.consecutive_zeros) := by
  cases h : health.lookup name with
  | none =>
    refine ⟨Extractors.updateEntry {} found_count, ?_, ?_, ?_⟩
    · unfold Extractors.update_health
      rw [h, Extractors.lookup_append_none _ _ _ h]
      simp [List.lookup]
    · by_cases hf : found_count = 0
      · simp [Extractors.updateEntry, h, hf]
      · simp [Extractors.updateEntry, h, hf, Nat.pos_of_ne_zero hf]
    · simp [Extractors.degraded]
  | some e =>
    refine ⟨Extractors.updateEntry e found_count, ?_, ?_, ?_⟩
    · unfold Extractors.update_health
      rw [h]
      exact Extractors.lookup_setHealth name
        (Extractors.updateEntry e found_count) health e h
    · by_cases hf : found_count = 0
      · simp [Extractors.updateEntry, h, hf]
      · simp [Extractors.updateEntry, h, hf, Nat.pos_of_ne_zero hf]
    · simp [Extractors.degraded]

/-- **C3 (counterexample).** The comment pipeline does not union
    strategies: with strategy `aria` finding one comment and
    `text_blocks` finding two others, `extract_comments` returns only the
    larger strategy's results; the comment the first strategy found is
    missing from the output, although no other strategy produced its
    identity. -/
theorem C3_counterexample :
    Comments.extract_comments
        [("aria".data, [{ author := "ann".data, text := "one".data }]),
         ("text_blocks".data,
           [{ author := "ben".data, text := "two".data },
            { author := "cat".data, text := "three".data }])]
      = [{ author := "ben".data, text := "two".data },
         { author := "cat".data, text := "three".data }]
    ∧ ({ author := "ann".data, text := "one".data } : Comments.Comment)
        ∉ Comments.extract_comments
        [("aria".data, [{ author := "ann".data, text := "one".data }]),
         ("text_blocks".data,
           [{ author := "ben".data, text := "two".data },
            { author := "cat".data, text := "three".data }])] := by
  decide

/-- **C3 (amended).** The POST pipeline (`extract_posts`) returns the
    union of all registered strategies' results keyed by `id`: every post
    found by at least one strategy appears exactly once, the surviving
    representative is the first occurrence in strategy registration order
    (so its provenance tag, assuming each strategy tags its own results,
    is the first strategy that found that identity), and each output post
    comes from some registered strategy. The COMMENT pipeline
    (`extract_comments`) instead keeps only the single strategy that
    returned the most comments, deduplicated — later strategies contribute
    nothing when a larger earlier strategy exists. -/
theorem C3_union_posts_best_comments
    (strats_p : List (List Char × List Extractors.ExtractedPost))
    (strats_c : List (List Char × List Comments.Comment))
    (hwt : ∀ r ∈ strats_p, ∀ p ∈ r.2, p.strategy = r.1) :
    (∀ p ∈ (strats_p.map Prod.snd).flatten,
        (Extractors.extract_posts strats_p).countP (fun q => q.id = p.id) = 1)
    ∧ (∀ q ∈ Extractors.extract_posts strats_p,
        ((strats_p.map Prod.snd).flatten).find? (fun p => p.id = q.id)
          = some q)
    ∧ (∀ q ∈ Extractors.extract_posts strats_p,
        ∃ r ∈ strats_p, q ∈ r.2 ∧ q.strategy = r.1)
    ∧ (∃ rs : List Comments.Comment,
        (rs = [] ∨ ∃ nm, (nm, rs) ∈ strats_c)
        ∧ Comments.extract_comments strats_c = Comments._deduplicate rs
        ∧ ∀ r ∈ strats_c, r.2.length ≤ rs.length) := by
  have heq := Extractors.extract_posts_eq strats_p
  refine ⟨?_, ?_, ?_, ?_⟩
  · intro p hp
    rw [heq]
    refine Extractors.countP_id_eq_one _ _ (Extractors.dedupFirst_ids_nodup _ _) ?_
    rcases Extractors.dedupFirst_complete _ [] p hp with hx | hx
    · simp at hx
    · exact hx
  · intro q hq
    rw [heq] at hq
    exact Extractors.dedupFirst_find _ [] q hq
  · intro q hq
    rw [heq] at hq
    have hmem := (Extractors.dedupFirst_mem _ [] q hq).1
    obtain ⟨l, hl, hql⟩ := List.mem_flatten.mp hmem
    obtain ⟨r, hr, hrl⟩ := List.mem_map.mp hl
    exact ⟨r, hr, hrl ▸ hql, hwt r hr q (hrl ▸ hql)⟩
  · obtain ⟨h1, -, h3⟩ := Extractors.pickBest_foldl strats_c []
    refine ⟨Comments.pickBest strats_c, ?_, rfl, h3⟩
    rcases h1 with he | hx
    · exact Or.inl he
    · exact Or.inr hx

/-- Witness for C3 (amended): two post strategies where the second re-finds
    id "1" and adds id "2", and two comment strategies of sizes 1 and 2. -/
theorem C3_union_posts_best_comments_witness :
    (∀ r ∈ ([("aria_articles".data,
          [{ url := "u1".data, id := "1".data, text := [],
             strategy := "aria_articles".data }]),
        ("link_sweep".data,
          [{ url := "u1".data, id := "1".data, text := [],
             strategy := "link_sweep".data },
           { url := "u2".data, id := "2".data, text := [],
             strategy := "link_sweep".data }])] :
        List (List Char × List Extractors.ExtractedPost)),
      ∀ p ∈ r.2, p.strategy = r.1)
    ∧ ((∀ p ∈ (([("aria_articles".data,
          [{ url := "u1".data, id := "1".data, text := [],
             strategy := "aria_articles".data }]),
        ("link_sweep".data,
          [{ url := "u1".data, id := "1".data, text := [],
             strategy := "link_sweep".data },
           { url := "u2".data, id := "2".data, text := [],
             strategy := "link_sweep".data }])] :
        List (List Char × List Extractors.ExtractedPost)).map
          Prod.snd).flatten,
        (Extractors.extract_posts
          [("aria_articles".data,
            [{ url := "u1".data, id := "1".data, text := [],
               strategy := "aria_articles".data }]),
           ("link_sweep".data,
            [{ url := "u1".data, id := "1".data, text := [],
               strategy := "link_sweep".data },
             { url := "u2".data, id := "2".data, text := [],
               strategy := "link_sweep".data }])]).countP
          (fun q => q.id = p.id) = 1)
      ∧ (∀ q ∈ Extractors.extract_posts
          [("aria_articles".data,
            [{ url := "u1".data, id := "1".data, text := [],
               strategy := "aria_articles".data }]),
           ("link_sweep".data,
            [{ url := "u1".data, id := "1".data, text := [],
               strategy := "link_sweep".data },
             { url := "u2".data, id := "2".data, text := [],
               strategy := "link_sweep".data }])],
          ((([("aria_articles".data,
            [{ url := "u1".data, id := "1".data, text := [],
               strategy := "aria_articles".data }]),
           ("link_sweep".data,
            [{ url := "u1".data, id := "1".data, text := [],
               strategy := "link_sweep".data },
             { url := "u2".data, id := "2".data, text := [],
               strategy := "link_sweep".data }])] :
            List (List Char × List Extractors.ExtractedPost)).map
              Prod.snd).flatten).find? (fun p => p.id = q.id) = some q)
      ∧ (∀ q ∈ Extractors.extract_posts
          [("aria_articles".data,
            [{ url := "u1".data, id := "1".data, text := [],
               strategy := "aria_articles".data }]),
           ("link_sweep".data,
            [{ url := "u1".data, id := "1".data, text := [],
               strategy := "link_sweep".data },
             { url := "u2".data, id := "2".data, text := [],
               strategy := "link_sweep".data }])],
          ∃ r ∈ ([("aria_articles".data,
            [{ url := "u1".data, id := "1".data, text := [],
               strategy := "aria_articles".data }]),
           ("link_sweep".data,
            [{ url := "u1".data, id := "1".data, text := [],
               strategy := "link_sweep".data },
             { url := "u2".data, id := "2".data, text := [],
               strategy := "link_sweep".data }])] :
            List (List Char × List Extractors.ExtractedPost)),
            q ∈ r.2 ∧ q.strategy = r.1)
      ∧ (∃ rs : List Comments.Comment,
          (rs = [] ∨ ∃ nm, (nm, rs) ∈
            ([("aria".data, [{ author := "ann".data, text := "one".data }]),
              ("text_blocks".data,
                [{ author := "ben".data, text := "two".data },
                 { author := "cat".data, text := "three".data }])] :
              List (List Char × List Comments.Comment)))
          ∧ Comments.extract_comments
              [("aria".data, [{ author := "ann".data, text := "one".data }]),
               ("text_blocks".data,
                 [{ author := "ben".data, text := "two".data },
                  { author := "cat".data, text := "three".data }])]
              = Comments._deduplicate rs
          ∧ ∀ r ∈ ([("aria".data,
                [{ author := "ann".data, text := "one".data }]),
              ("text_blocks".data,
                [{ author := "ben".data, text := "two".data },
                 { author := "cat".data, text := "three".data }])] :
              List (List Char × List Comments.Comment)),
              r.2.length ≤ rs.length)) :=
  ⟨by decide,
   C3_union_posts_best_comments
     [("aria_articles".data,
       [{ url := "u1".data, id := "1".data, text := [],
          strategy := "aria_articles".data }]),
      ("link_sweep".data,
       [{ url := "u1".data, id := "1".data, text := [],
          strategy := "link_sweep".data },
        { url := "u2".data, id := "2".data, text := [],
          strategy := "link_sweep".data }])]
     [("aria".data, [{ author := "ann".data, text := "one".data }]),
      ("text_blocks".data,
        [{ author := "ben".data, text := "two".data },
         { author := "cat".data, text := "three".data }])]
     (by decide)⟩

/-- **C4 (counterexample).** With `tracking_hours = 1000`, a job 800 hours
    old (beyond the 30-day / 720-hour window) is NOT removed by
    `prune_expired_jobs`: the effective threshold is
    `max(tracking_hours, 720)`, not 720. -/
theorem C4_counterexample :
    Tracker.prune_expired_jobs
        [{ post_id := "p".data, detected_at := 0 }] 2880000 1000
      = ([{ post_id := "p".data, detected_at := 0 }], 0)
    ∧ ((2880000 : ℚ) - 0) / 3600 > 720 := by
  constructor
  · norm_num [Tracker.prune_expired_jobs, List.filter_cons, max_def]
  · norm_num

/-- **C4 (amended).** `prune_expired_jobs` removes exactly those jobs whose
    age in hours exceeds `max(tracking_hours, 720)` — which is exactly 720
    whenever `tracking_hours ≤ 720` — keeps the younger jobs unchanged and
    in order, reports the number removed, and decides on `detected_at`
    alone, regardless of `comment_checks` or `last_comment_check`. -/
theorem C4_prune_threshold (jobs : List Tracker.Job)
    (now tracking_hours : ℚ) :
    (∀ j : Tracker.Job,
        j ∈ (Tracker.prune_expired_jobs jobs now tracking_hours).1
          ↔ j ∈ jobs ∧ (now - j.detected_at) / 3600 ≤ max tracking_hours 720)
    ∧ (tracking_hours ≤ 720 →
        ∀ j : Tracker.Job,
          j ∈ (Tracker.prune_expired_jobs jobs now tracking_hours).1
            ↔ j ∈ jobs ∧ (now - j.detected_at) / 3600 ≤ 720)
    ∧ (Tracker.prune_expired_jobs jobs now tracking_hours).1.Sublist jobs
    ∧ (Tracker.prune_expired_jobs jobs now tracking_hours).1.length
        + (Tracker.prune_expired_jobs jobs now tracking_hours).2
        = jobs.length
    ∧ ∀ f : Tracker.Job → Tracker.Job,
        (∀ j, (f j).detected_at = j.detected_at) →
        (Tracker.prune_expired_jobs (jobs.map f) now tracking_hours).1
          = ((Tracker.prune_expired_jobs jobs now tracking_hours).1).map f := by
  refine ⟨?_, ?_, ?_, ?_, ?_⟩
  · intro j
    simp [Tracker.prune_expired_jobs, List.mem_filter]
  · intro hth j
    simp [Tracker.prune_expired_jobs, List.mem_filter, max_eq_right hth]
  · exact List.filter_sublist jobs
  · have hle := List.length_filter_le
      (fun j : Tracker.Job =>
        decide ((now - j.detected_at) / 3600 ≤ max tracking_hours 720)) jobs
    simp only [Tracker.prune_expired_jobs]
    omega
  · intro f hf
    simp only [Tracker.prune_expired_jobs]
    rw [List.filter_map]
    congr 1
    apply List.filter_congr
    intro j _
    simp [hf j]

/-- **C5 (counterexample).** With `tracking_hours = 1000`, a job detected
    800 hours ago (more than 30 days) with a null `last_comment_check` IS
    returned by `get_due_tracking_jobs`: the cutoff is
    `max(tracking_hours, 720)`, so "a job detected more than 720 hours
    before now is never returned" is false. -/
theorem C5_counterexample :
    ({ post_id := "p".data, detected_at := 0 } : Tracker.Job)
      ∈ Tracker.get_due_tracking_jobs
          [{ post_id := "p".data, detected_at := 0 }] 2880000 30 1000
    ∧ ((2880000 : ℚ) - 0) / 3600 > 720 := by
  constructor
  · norm_num [Tracker.get_due_tracking_jobs, List.filter_cons,
      Tracker.isDue, max_def]
  · norm_num

/-- **C5 (amended).** `get_due_tracking_jobs` applies the age-tiered
    intervals: a job detected 30 hours before `now` with
    `last_comment_check` 5 hours before `now` is not due (its 24-48h tier
    interval is 360 minutes), the same job checked 7 hours before `now` is
    due; a job with a null `last_comment_check` is due whenever its age is
    within `max(tracking_hours, 720)` hours; and a job older than
    `max(tracking_hours, 720)` hours — 720 exactly when
    `tracking_hours ≤ 720` — is never returned. -/
theorem C5_tiered_recheck (jobs : List Tracker.Job) (j : Tracker.Job)
    (now recheck_minutes tracking_hours : ℚ) (hj : j ∈ jobs) :
    (now - j.detected_at = 30 * 3600 →
        (j.last_comment_check = some (now - 5 * 3600) →
          j ∉ Tracker.get_due_tracking_jobs jobs now recheck_minutes
              tracking_hours)
      ∧ (j.last_comment_check = some (now - 7 * 3600) →
          j ∈ Tracker.get_due_tracking_jobs jobs now recheck_minutes
              tracking_hours))
    ∧ (j.last_comment_check = none →
        (now - j.detected_at) / 3600 ≤ max tracking_hours 720 →
        j ∈ Tracker.get_due_tracking_jobs jobs now recheck_minutes
            tracking_hours)
    ∧ ((now - j.detected_at) / 3600 > max tracking_hours 720 →
        j ∉ Tracker.get_due_tracking_jobs jobs now recheck_minutes
            tracking_hours) := by
  refine ⟨fun hage => ⟨fun hlc => ?_, fun hlc => ?_⟩,
    fun hlc hage => ?_, fun hage => ?_⟩
  · have hd : Tracker.isDue now recheck_minutes tracking_hours j = false := by
      have h30 : (now - j.detected_at) / 3600 = 30 := by rw [hage]; norm_num
      have hngt : ¬ ((30 : ℚ) > max tracking_hours 720) :=
        not_lt.mpr (le_trans (by norm_num) (le_max_right _ _))
      have hmin : (now - (now - 5 * 3600)) / 60 = 300 := by ring_nf
      have hti : Tracker.tierInterval recheck_minutes 30 = 360 := by
        norm_num [Tracker.tierInterval]
      simp only [Tracker.isDue, h30, if_neg hngt, hlc, hmin, hti]
      norm_num
    simp [Tracker.get_due_tracking_jobs, List.mem_filter, hd]
  · have hd : Tracker.isDue now recheck_minutes tracking_hours j = true := by
      have h30 : (now - j.detected_at) / 3600 = 30 := by rw [hage]; norm_num
      have hngt : ¬ ((30 : ℚ) > max tracking_hours 720) :=
        not_lt.mpr (le_trans (by norm_num) (le_max_right _ _))
      have hmin : (now - (now - 7 * 3600)) / 60 = 420 := by ring_nf
      have hti : Tracker.tierInterval recheck_minutes 30 = 360 := by
        norm_num [Tracker.tierInterval]
      simp only [Tracker.isDue, h30, if_neg hngt, hlc, hmin, hti]
      norm_num
    exact List.mem_filter.mpr ⟨hj, hd⟩
  · have hd : Tracker.isDue now recheck_minutes tracking_hours j = true := by
      simp only [Tracker.isDue, if_neg (not_lt.mpr hage), hlc]
    exact List.mem_filter.mpr ⟨hj, hd⟩
  · have hd : Tracker.isDue now recheck_minutes tracking_hours j = false := by
      simp only [Tracker.isDue, if_pos hage]
    simp [Tracker.get_due_tracking_jobs, List.mem_filter, hd]

/-- Witness for C5 (amended): a single job detected 30 hours before
    `now = 108000` and last checked 7 hours before it, with
    `recheck_minutes = 30` and `tracking_hours = 24`. -/
theorem C5_tiered_recheck_witness :
    (({ post_id := "p".data, detected_at := 0,
        last_comment_check := some 82800 } : Tracker.Job)
      ∈ [({ post_id := "p".data, detected_at := 0,
            last_comment_check := some 82800 } : Tracker.Job)])
    ∧ (((108000 : ℚ) - 0 = 30 * 3600 →
        (some (82800 : ℚ) = some ((108000 : ℚ) - 5 * 3600) →
          ({ post_id := "p".data, detected_at := 0,
             last_comment_check := some 82800 } : Tracker.Job)
            ∉ Tracker.get_due_tracking_jobs
                [{ post_id := "p".data, detected_at := 0,
                   last_comment_check := some 82800 }] 108000 30 24)
        ∧ (some (82800 : ℚ) = some ((108000 : ℚ) - 7 * 3600) →
            ({ post_id := "p".data, detected_at := 0,
               last_comment_check := some 82800 } : Tracker.Job)
              ∈ Tracker.get_due_tracking_jobs
                  [{ post_id := "p".data, detected_at := 0,
                     last_comment_check := some 82800 }] 108000 30 24))
      ∧ ((some (82800 : ℚ) = (none : Option ℚ)) →
          ((108000 : ℚ) - 0) / 3600 ≤ max (24 : ℚ) 720 →
          ({ post_id := "p".data, detected_at := 0,
             last_comment_check := some 82800 } : Tracker.Job)
            ∈ Tracker.get_due_tracking_jobs
                [{ post_id := "p".data, detected_at := 0,
                   last_comment_check := some 82800 }] 108000 30 24)
      ∧ (((108000 : ℚ) - 0) / 3600 > max (24 : ℚ) 720 →
          ({ post_id := "p".data, detected_at := 0,
             last_comment_check := some 82800 } : Tracker.Job)
            ∉ Tracker.get_due_tracking_jobs
                [{ post_id := "p".data, detected_at := 0,
                   last_comment_check := some 82800 }] 108000 30 24)) :=
  ⟨List.mem_cons_self _ _,
   C5_tiered_recheck
     [{ post_id := "p".data, detected_at := 0,
        last_comment_check := some 82800 }]
     { post_id := "p".data, detected_at := 0,
       last_comment_check := some 82800 }
     108000 30 24 (List.mem_cons_self _ _)⟩

/-- **C1 (counterexample).** A `RateLimiter` with `max_per_hour = 10`:
    with the 10 recorded timestamps all inside the trailing hour
    (`now = 2000`) `should_wait` returns a positive wait, but at
    `now = 3650`, when the oldest timestamp has aged out and 9 remain
    inside the window, `should_wait` returns `some 30` — the above-80%
    delay branch — not none/zero as the claim states. -/
theorem C1_counterexample :
    Stealth.should_wait 10
        [0, 1000, 1100, 1200, 1300, 1400, 1500, 1600, 1700, 1800]
        2000 10 30 = some 1610
    ∧ Stealth.should_wait 10
        [0, 1000, 1100, 1200, 1300, 1400, 1500, 1600, 1700, 1800]
        3650 10 30 = some 30
    ∧ (Stealth._prune
        [0, 1000, 1100, 1200, 1300, 1400, 1500, 1600, 1700, 1800]
        3650).length = 9
    ∧ (30 : ℚ) > 0 := by
  refine ⟨?_, ?_, ?_, by norm_num⟩
  · norm_num [Stealth.should_wait, Stealth._prune, List.filter_cons,
      Stealth.listMin, List.foldl, min_def]
  · norm_num [Stealth.should_wait, Stealth._prune, List.filter_cons,
      Stealth.listMin]
  · norm_num [Stealth._prune, List.filter_cons]

/-- **C1 (amended).** With `max_per_hour = 10`: while 10 recorded
    timestamps lie within the trailing hour, `should_wait` returns a
    positive wait; once the oldest has aged out, leaving 9 inside the
    window, it still returns a positive wait (the above-80% delay, drawn
    from [30, 90]); it returns none only once at most 8 remain inside the
    window — all without any reset() call in between. -/
theorem C1_rate_limiter (reqs : List ℚ) (now now9 now8 rBig rSmall : ℚ)
    (h10 : (Stealth._prune reqs now).length = 10)
    (h9 : (Stealth._prune reqs now9).length = 9)
    (h8 : (Stealth._prune reqs now8).length = 8)
    (hr1 : 10 ≤ rBig) (hr2 : 30 ≤ rSmall) :
    (∃ w, Stealth.should_wait 10 reqs now rBig rSmall = some w ∧ 0 < w)
    ∧ (Stealth.should_wait 10 reqs now9 rBig rSmall = some rSmall
        ∧ 0 < rSmall)
    ∧ Stealth.should_wait 10 reqs now8 rBig rSmall = none := by
  refine ⟨?_, ?_, ?_⟩
  · have hc : (Stealth._prune reqs now).length ≥ 10 := by rw [h10]
    simp only [Stealth.should_wait, if_pos hc]
    refine ⟨_, rfl, ?_⟩
    have hne : Stealth._prune reqs now ≠ [] := by
      intro h0
      rw [h0] at h10
      simp at h10
    have hmem := Stealth.listMin_mem _ hne
    have hgt : Stealth.listMin (Stealth._prune reqs now) > now - 3600 := by
      have hf := List.of_mem_filter hmem
      simpa using hf
    have hpos : 0 < Stealth.listMin (Stealth._prune reqs now)
        + 3600 - now + rBig := by linarith
    exact lt_of_lt_of_le hpos (le_max_right 0 _)
  · have hc1 : ¬ (Stealth._prune reqs now9).length ≥ 10 := by
      rw [h9]
      norm_num
    have hc2 : ((Stealth._prune reqs now9).length : ℚ) > (10 : ℕ) * (4 / 5) := by
      rw [h9]
      norm_num
    simp only [Stealth.should_wait, if_neg hc1, if_pos hc2]
    exact ⟨by trivial, by linarith⟩
  · have hc1 : ¬ (Stealth._prune reqs now8).length ≥ 10 := by
      rw [h8]
      norm_num
    have hc2 : ¬ ((Stealth._prune reqs now8).length : ℚ) > (10 : ℕ) * (4 / 5) := by
      rw [h8]
      norm_num
    simp only [Stealth.should_wait, if_neg hc1, if_neg hc2]

/-- Witness for C1 (amended) at the concrete timestamp list: 10 inside the
    window at `now = 2000`, 9 at `now = 3650`, 8 at `now = 4650`. -/
theorem C1_rate_limiter_witness :
    ((Stealth._prune
        [0, 1000, 1100, 1200, 1300, 1400, 1500, 1600, 1700, 1800]
        2000).length = 10
      ∧ (Stealth._prune
        [0, 1000, 1100, 1200, 1300, 1400, 1500, 1600, 1700, 1800]
        3650).length = 9
      ∧ (Stealth._prune
        [0, 1000, 1100, 1200, 1300, 1400, 1500, 1600, 1700, 1800]
        4650).length = 8
      ∧ (10 : ℚ) ≤ 10 ∧ (30 : ℚ) ≤ 30)
    ∧ ((∃ w, Stealth.should_wait 10
          [0, 1000, 1100, 1200, 1300, 1400, 1500, 1600, 1700, 1800]
          2000 10 30 = some w ∧ 0 < w)
      ∧ (Stealth.should_wait 10
          [0, 1000, 1100, 1200, 1300, 1400, 1500, 1600, 1700, 1800]
          3650 10 30 = some 30 ∧ (0 : ℚ) < 30)
      ∧ Stealth.should_wait 10
          [0, 1000, 1100, 1200, 1300, 1400, 1500, 1600, 1700, 1800]
          4650 10 30 = none) :=
  ⟨⟨by norm_num [Stealth._prune, List.filter_cons],
    by norm_num [Stealth._prune, List.filter_cons],
    by norm_num [Stealth._prune, List.filter_cons],
    by norm_num, by norm_num⟩,
   C1_rate_limiter
     [0, 1000, 1100, 1200, 1300, 1400, 1500, 1600, 1700, 1800]
     2000 3650 4650 10 30
     (by norm_num [Stealth._prune, List.filter_cons])
     (by norm_num [Stealth._prune, List.filter_cons])
     (by norm_num [Stealth._prune, List.filter_cons])
     (by norm_num) (by norm_num)⟩

/-- Concrete comments for the C2 scenario: `wAlice` has no timestamp,
    `wAliceT` is the same author/text with a timestamp (same identity key),
    `wBob` has a fresh key. -/
def wAlice : Comments.Comment := { author := "alice".data, text := "hello".data }

def wAliceT : Comments.Comment :=
  { author := "alice".data, text := "hello".data, timestamp := "2024-05-01".data }

def wBob : Comments.Comment := { author := "bob".data, text := "hi there".data }

/-- **C2 (counterexample).** `merge_comments([C1], [C1', C2])` with `C1'`
    carrying a timestamp and the same key as the timestamp-less `C1` does
    report 1 new comment, but it keeps `C1`, not the timestamped `C1'`:
    the claim's "the timestamped version is the one kept" is false. -/
theorem C2_counterexample :
    Comments.merge_comments [wAlice] [wAliceT, wBob] = ([wAlice, wBob], 1)
    ∧ wAliceT ∉ (Comments.merge_comments [wAlice] [wAliceT, wBob]).1
    ∧ wAliceT.timestamp ≠ [] ∧ wAlice.timestamp = []
    ∧ Comments._comment_key wAliceT = Comments._comment_key wAlice := by
  decide

/-- **C2 (amended).** `merge_comments([C1], [C1', C2])`, where `C1'` has
    the same identity key as `C1` but a non-empty timestamp while `C1`'s
    timestamp is empty and `C2`'s key is fresh, keeps the already-present
    `C1` (dropping the timestamped `C1'`) and reports exactly 1 new comment
    (only `C2`); the preference for the version with more metadata lives in
    `_deduplicate`, which keeps `C1'` when handed both versions. -/
theorem C2_merge_keeps_existing_version
    (c ct c2 : Comments.Comment)
    (hk : Comments._comment_key ct = Comments._comment_key c)
    (hk2 : Comments._comment_key c2 ≠ Comments._comment_key c)
    (hts : c.timestamp = []) (hts2 : ct.timestamp ≠ []) :
    Comments.merge_comments [c] [ct, c2] = ([c, c2], 1)
    ∧ Comments._deduplicate [c, ct] = [ct] := by
  constructor
  · simp [Comments.merge_comments, Comments.mergeStep, hk, hk2]
  · simp [Comments._deduplicate, Comments.dedupStep, List.lookup, hk,
      hts, hts2]

/-- Witness for C2 (amended) at the concrete Alice/Bob comments. -/
theorem C2_merge_keeps_existing_version_witness :
    (Comments._comment_key wAliceT = Comments._comment_key wAlice
      ∧ Comments._comment_key wBob ≠ Comments._comment_key wAlice
      ∧ wAlice.timestamp = [] ∧ wAliceT.timestamp ≠ [])
    ∧ (Comments.merge_comments [wAlice] [wAliceT, wBob] = ([wAlice, wBob], 1)
      ∧ Comments._deduplicate [wAlice, wAliceT] = [wAliceT]) :=
  ⟨⟨by decide, by decide, by decide, by decide⟩,
   C2_merge_keeps_existing_version wAlice wAliceT wBob
     (by decide) (by decide) (by decide) (by decide)⟩

/-- Comments whose authors collide with the `|` key separator:
    `wBarA` is author `"x|y"` with text `"z"`, `wBarB` author `"x"` with
    text `"y|z"`; both produce the key `"x|y|z"`. -/
def wBarA : Comments.Comment := { author := "x|y".data, text := "z".data }

def wBarB : Comments.Comment := { author := "x".data, text := "y|z".data }

/-- **C10 (counterexample).** Two comments with the same deduplication key
    whose authors do NOT agree after lowercasing and stripping (and whose
    normalised texts differ as well): the separator `|` inside an author
    defeats the claimed "only if" direction. -/
theorem C10_counterexample :
    Comments._comment_key wBarA = Comments._comment_key wBarB
    ∧ Comments.stripS (Comments.lowerS wBarA.author)
        ≠ Comments.stripS (Comments.lowerS wBarB.author)
    ∧ (Comments.collapseWs (Comments.lowerS (Comments.stripS wBarA.text))).take 150
        ≠ (Comments.collapseWs (Comments.lowerS (Comments.stripS wBarB.text))).take 150 := by
  decide

/-- **C10 (amended).** Provided neither author's normalised form contains
    the `'|'` separator, two comments receive the same deduplication key
    if and only if their authors agree after lowercasing and stripping and
    their normalised texts (strip, lowercase, collapse whitespace) agree on
    the first 150 characters. Without the proviso only the "if" direction
    holds. -/
theorem C10_key_characterisation (c d : Comments.Comment)
    (hc : '|' ∉ Comments.stripS (Comments.lowerS c.author))
    (hd : '|' ∉ Comments.stripS (Comments.lowerS d.author)) :
    Comments._comment_key c = Comments._comment_key d ↔
      (Comments.stripS (Comments.lowerS c.author)
          = Comments.stripS (Comments.lowerS d.author)
       ∧ (Comments.collapseWs (Comments.lowerS (Comments.stripS c.text))).take 150
          = (Comments.collapseWs (Comments.lowerS (Comments.stripS d.text))).take 150) := by
  constructor
  · intro h
    simp only [Comments._comment_key] at h
    exact Comments.key_split _ _ _ _ hc hd h
  · rintro ⟨h1, h2⟩
    simp [Comments._comment_key, h1, h2]

/-- Witness for C10 (amended): two comments differing in author casing and
    text whitespace only; their keys agree, as the characterisation says. -/
theorem C10_key_characterisation_witness :
    ('|' ∉ Comments.stripS (Comments.lowerS
        ({ author := "carol".data, text := "good post".data } :
          Comments.Comment).author)
      ∧ '|' ∉ Comments.stripS (Comments.lowerS
        ({ author := " Carol".data, text := " Good  post ".data } :
          Comments.Comment).author))
    ∧ (Comments._comment_key { author := "carol".data, text := "good post".data }
          = Comments._comment_key
              { author := " Carol".data, text := " Good  post ".data } ↔
        (Comments.stripS (Comments.lowerS
            ({ author := "carol".data, text := "good post".data } :
              Comments.Comment).author)
            = Comments.stripS (Comments.lowerS
                ({ author := " Carol".data, text := " Good  post ".data } :
                  Comments.Comment).author)
         ∧ (Comments.collapseWs (Comments.lowerS (Comments.stripS
              ({ author := "carol".data, text := "good post".data } :
                Comments.Comment).text))).take 150
            = (Comments.collapseWs (Comments.lowerS (Comments.stripS
                ({ author := " Carol".data, text := " Good  post ".data } :
                  Comments.Comment).text))).take 150)) :=
  ⟨⟨by decide, by decide⟩,
   C10_key_characterisation
     { author := "carol".data, text := "good post".data }
     { author := " Carol".data, text := " Good  post ".data }
     (by decide) (by decide)⟩

/-- **C8.** `merge_comments` grows the record monotonically: the result is
    the existing list followed by exactly those new comments whose identity
    key occurs neither in the existing list nor in an earlier appended new
    comment (their keys are pairwise distinct and fresh, and every new
    comment's key is represented in the result); the returned count equals
    the number appended; re-merging the same new list appends nothing; and
    `merge_comments [] [c]` yields `([c], 1)`. -/
theorem C8_merge_monotone_growth (e n : List Comments.Comment) :
    (∃ t : List Comments.Comment,
        (Comments.merge_comments e n).1 = e ++ t
      ∧ (Comments.merge_comments e n).2 = t.length
      ∧ (∀ c ∈ t, c ∈ n
            ∧ Comments._comment_key c ∉ e.map Comments._comment_key)
      ∧ (t.map Comments._comment_key).Nodup
      ∧ (∀ c ∈ n, Comments._comment_key c
            ∈ ((Comments.merge_comments e n).1).map Comments._comment_key))
    ∧ (Comments.merge_comments (Comments.merge_comments e n).1 n).2 = 0
    ∧ ∀ c : Comments.Comment, Comments.merge_comments [] [c] = ([c], 1) := by
  obtain ⟨t, h1, h2, h3, h4, h5⟩ := Comments.merge_comments_spec e n
  refine ⟨⟨t, h1, h2, h3, h4, fun c hc => h1 ▸ h5 c hc⟩, ?_, ?_⟩
  · obtain ⟨t2, g1, g2, g3, g4, g5⟩ :=
      Comments.merge_comments_spec (Comments.merge_comments e n).1 n
    rcases ht2 : t2 with _ | ⟨c, t2t⟩
    · simp [g2, ht2]
    · exfalso
      have hc : c ∈ t2 := ht2 ▸ List.mem_cons_self _ _
      have hmem := (g3 c hc).1
      have hfresh := (g3 c hc).2
      exact hfresh (h1 ▸ h5 c hmem)
  · intro c
    simp [Comments.merge_comments, Comments.mergeStep]

/-- **C9.** When racing 3 or more raceable circuits (two start orders of
    the same probe set are modelled as permutations of the completion
    sequence), the winner is determined by the completion order alone: it
    is the first probe in completion order that reports a successful,
    non-blocked result, and once the winner is set, results completing
    later never overwrite it. -/
theorem C9_race_first_success_wins
    (s1 s2 completions : List FBMonitor.ProbeEvent)
    (h1 : completions.Perm s1) (h2 : completions.Perm s2)
    (h3 : 3 ≤ completions.length) :
    FBMonitor.raceWinner completions
      = (completions.find? (fun e => e.ok)).map FBMonitor.ProbeEvent.inst
    ∧ ∀ (p q : List FBMonitor.ProbeEvent) (w : Nat),
        FBMonitor.raceWinner p = some w →
        FBMonitor.raceWinner (p ++ q) = some w := by
  refine ⟨FBMonitor.raceWinner_eq_find completions, ?_⟩
  intro p q w hw
  unfold FBMonitor.raceWinner at hw ⊢
  rw [List.foldl_append, hw, FBMonitor.foldl_raceStep_some]

/-- Witness for C9 at the spec's own example: three probes where circuit
    2 completes (successfully) before circuit 3; circuit 2 wins. -/
theorem C9_race_first_success_wins_witness :
    (([⟨1, false⟩, ⟨2, true⟩, ⟨3, true⟩] : List FBMonitor.ProbeEvent).Perm
        ([⟨2, true⟩, ⟨1, false⟩, ⟨3, true⟩] : List FBMonitor.ProbeEvent)
      ∧ ([⟨1, false⟩, ⟨2, true⟩, ⟨3, true⟩] : List FBMonitor.ProbeEvent).Perm
        ([⟨3, true⟩, ⟨2, true⟩, ⟨1, false⟩] : List FBMonitor.ProbeEvent)
      ∧ 3 ≤ ([⟨1, false⟩, ⟨2, true⟩, ⟨3, true⟩] : List FBMonitor.ProbeEvent).length)
    ∧ (FBMonitor.raceWinner [⟨1, false⟩, ⟨2, true⟩, ⟨3, true⟩]
        = (([⟨1, false⟩, ⟨2, true⟩, ⟨3, true⟩] :
            List FBMonitor.ProbeEvent).find? (fun e => e.ok)).map
            FBMonitor.ProbeEvent.inst
      ∧ ∀ (p q : List FBMonitor.ProbeEvent) (w : Nat),
          FBMonitor.raceWinner p = some w →
          FBMonitor.raceWinner (p ++ q) = some w) :=
  ⟨⟨by decide, by decide, by decide⟩,
   C9_race_first_success_wins
     ([⟨2, true⟩, ⟨1, false⟩, ⟨3, true⟩] : List FBMonitor.ProbeEvent)
     ([⟨3, true⟩, ⟨2, true⟩, ⟨1, false⟩] : List FBMonitor.ProbeEvent)
     ([⟨1, false⟩, ⟨2, true⟩, ⟨3, true⟩] : List FBMonitor.ProbeEvent)
     (by decide) (by decide) (by decide)⟩
